import Mathlib

/-!
Verification of the llamashell core shell engine (src/llamashell/shell.py):
a shallow embedding of `parse_input`, `execute_command`, `execute_pipeline`
and `main_loop`, together with theorems settling the specification claims.
Strings are modelled as `List Char` where the Python code works on raw text,
and as Lean `String` once tokens have been produced.  OS interaction
(chdir, process spawning, process output) is modelled by an explicit oracle
record `OS`; observable actions (prints, file opens/closes, spawns, waits)
are collected in an effect trace.
-/

deriving instance DecidableEq for Except

namespace LlamaShell

/-- Characters removed by the Python method str.strip (ASCII whitespace). -/
def pyIsSpace (c : Char) : Bool :=
  c == ' ' || c == '\t' || c == '\n' || c == '\r' || c == '\x0b' || c == '\x0c'

/-- Model of str.strip: remove leading and trailing whitespace. -/
def pyStrip (s : List Char) : List Char :=
  ((s.dropWhile pyIsSpace).reverse.dropWhile pyIsSpace).reverse

/-- Whitespace characters of the shlex lexer. -/
def shlexWS (c : Char) : Bool :=
  c == ' ' || c == '\t' || c == '\r' || c == '\n'

/-- States of the POSIX shlex state machine in whitespace_split mode, as used
by shlex.split inside parse_input: between tokens, inside a plain word, inside
single quotes, inside double quotes, after a backslash outside quotes, and
after a backslash inside double quotes. -/
inductive LexMode
  | ws | word | squote | dquote | escWord | escDquote
deriving DecidableEq

/-- Model of shlex.read_token (POSIX mode, whitespace_split, no comment
characters) iterated over the whole input: returns the token list, or the
message of the ValueError shlex raises on an unclosed quote or a trailing
backslash.  `tok` is the token built so far and `quoted` records whether the
current token saw a quote (so that an empty quoted token is still emitted). -/
def shlexRun : List Char → LexMode → List Char → Bool → Except String (List String)
  | [], .ws, _, _ => .ok []
  | [], .word, tok, quoted => .ok (if !tok.isEmpty || quoted then [String.mk tok] else [])
  | [], .squote, _, _ => .error "No closing quotation"
  | [], .dquote, _, _ => .error "No closing quotation"
  | [], .escWord, _, _ => .error "No escaped character"
  | [], .escDquote, _, _ => .error "No escaped character"
  | c :: cs, .ws, _, _ =>
    if shlexWS c then shlexRun cs .ws [] false
    else if c == '\'' then shlexRun cs .squote [] true
    else if c == '"' then shlexRun cs .dquote [] true
    else if c == '\\' then shlexRun cs .escWord [] false
    else shlexRun cs .word [c] false
  | c :: cs, .word, tok, quoted =>
    if shlexWS c then
      (shlexRun cs .ws [] false).map
        (fun rest => (if !tok.isEmpty || quoted then [String.mk tok] else []) ++ rest)
    else if c == '\'' then shlexRun cs .squote tok true
    else if c == '"' then shlexRun cs .dquote tok true
    else if c == '\\' then shlexRun cs .escWord tok quoted
    else shlexRun cs .word (tok ++ [c]) quoted
  | c :: cs, .squote, tok, quoted =>
    if c == '\'' then shlexRun cs .word tok quoted
    else shlexRun cs .squote (tok ++ [c]) quoted
  | c :: cs, .dquote, tok, quoted =>
    if c == '"' then shlexRun cs .word tok quoted
    else if c == '\\' then shlexRun cs .escDquote tok quoted
    else shlexRun cs .dquote (tok ++ [c]) quoted
  | c :: cs, .escWord, tok, quoted => shlexRun cs .word (tok ++ [c]) quoted
  | c :: cs, .escDquote, tok, quoted =>
    shlexRun cs .dquote (if c == '"' || c == '\\' then tok ++ [c] else tok ++ ['\\', c]) quoted

/-- Model of shlex.split. -/
def shlexSplit (s : List Char) : Except String (List String) :=
  shlexRun s .ws [] false

/-- Model of the Python expression user_input.split of the pipe character:
split at every occurrence, quoted or not. -/
def splitPipe : List Char → List (List Char)
  | [] => [[]]
  | c :: cs =>
    if c == '|' then [] :: splitPipe cs
    else
      match splitPipe cs with
      | s :: ss => (c :: s) :: ss
      | [] => [[c]]

/-- The line whose pipe-separated segments are the given pieces: the inverse
of splitPipe on pipe-free segments. -/
def joinPipes : List (List Char) → List Char
  | [] => []
  | [s] => s
  | s :: rest => s ++ '|' :: joinPipes rest

/-- One parsed pipeline stage, as built by parse_input: the argument list and
the optional input, output and append redirection targets. -/
structure StageSpec where
  args : List String
  input_file : Option String
  output_file : Option String
  append_file : Option String
deriving DecidableEq

/-- The while loop of parse_input over one word-split segment: plain tokens
accumulate into args, and each redirection operator token consumes the next
token as its target, raising when no next token exists. -/
def scanTokens : List String → List String → Option String → Option String → Option String →
    Except String (List String × Option String × Option String × Option String)
  | [], acc, inf, outf, appf => .ok (acc, inf, outf, appf)
  | t :: rest, acc, inf, outf, appf =>
    if t == "<" then
      match rest with
      | [] => .error "Missing input file after <"
      | f :: rest2 => scanTokens rest2 acc (some f) outf appf
    else if t == ">" then
      match rest with
      | [] => .error "Missing output file after >"
      | f :: rest2 => scanTokens rest2 acc inf (some f) appf
    else if t == ">>" then
      match rest with
      | [] => .error "Missing output file after >>"
      | f :: rest2 => scanTokens rest2 acc inf outf (some f)
    else scanTokens rest (acc ++ [t]) inf outf appf

/-- The for loop of parse_input over all word-split segments: empty segments
are skipped, each remaining segment is scanned for redirections, and segments
whose scan leaves no plain arguments are dropped. -/
def parseStages : List (List String) → Except String (List StageSpec)
  | [] => .ok []
  | cmd :: rest =>
    if cmd.isEmpty then parseStages rest
    else
      match scanTokens cmd [] none none none with
      | .error e => .error e
      | .ok (args, inf, outf, appf) =>
        match parseStages rest with
        | .error e => .error e
        | .ok others =>
          .ok (if args.isEmpty then others else ⟨args, inf, outf, appf⟩ :: others)

/-- Model of parse_input: when the line contains a pipe character, split at
every pipe, strip each piece and word-split it with shlex; otherwise word-split
the whole line; then extract redirection targets segment by segment. -/
def parse_input (user_input : List Char) : Except String (List StageSpec) :=
  match
    (if user_input.contains '|' then
      (splitPipe user_input).mapM (fun c => shlexSplit (pyStrip c))
    else
      (shlexSplit user_input).map (fun t => [t])) with
  | .error e => .error e
  | .ok commands => parseStages commands

/-- Outcome of subprocess.run for an interactive command: normal return,
FileNotFoundError, CalledProcessError, or some other exception. -/
inductive RunOutcome
  | okRun | notFound | exitErr (msg : String) | otherErr (msg : String)

/-- Oracle describing the surrounding operating system: the current and home
directories, the result of chdir (given current directory and target, the new
directory on success), which argument vectors Popen can spawn, the outcome of
subprocess.run, and the stdout/stderr data each spawned process produces. -/
structure OS where
  cwd : String
  home : String
  chdirRes : String → String → Option String
  spawnOk : List String → Bool
  runRes : List String → RunOutcome
  procStdout : Nat → String
  procStderr : Nat → String

/-- Handle to a spawned process: its id and whether its stdout is a pipe
(process.stdout is not None exactly when Popen was given stdout=PIPE). -/
structure Proc where
  id : Nat
  hasStdoutPipe : Bool
deriving DecidableEq

/-- The stdout argument execute_command receives: subprocess.PIPE or None. -/
inductive StdoutArg
  | pipeArg | inheritArg
deriving DecidableEq

/-- Observable actions of the shell: user-visible plain prints, error-marked
(red) prints, file opens and closes, closing a process stdout pipe, running an
interactive command synchronously, spawning a process, waiting on a process
(communicate), and the farewell printed when the loop ends. -/
inductive Eff
  | printOut (s : String)
  | printErr (s : String)
  | openRead (f : String)
  | openWrite (f : String)
  | openAppend (f : String)
  | closeFile (f : String)
  | closeH (h : Nat)
  | runSync (a : List String)
  | spawnEff (h : Nat) (a : List String)
  | waitEff (h : Nat)
  | farewell
deriving DecidableEq

/-- Result of execute_command: True, False, a process handle, or None. -/
inductive CmdResult
  | cont
  | terminate
  | spawned (p : Proc)
  | failed
deriving DecidableEq

/-- The fixed list of interactive commands. -/
def interactive_commands : List String :=
  ["vi", "vim", "ps", "top", "less", "nano", "more", "python", "python3"]

/-- Python truthiness of an optional string field: None and the empty string
are falsy, every other string is truthy. -/
def truthy : Option String → Bool
  | none => false
  | some s => !(s == "")

/-- The stdout resolution of line 109: open output_file for write when it is
truthy, else open append_file for append when it is truthy, else fall back to
the stdout argument; some (true, f) means f opened for write, some (false, g)
means g opened for append, none means the stdout argument is used. -/
def stdoutFileOf (outf appf : Option String) : Option (Bool × String) :=
  match outf with
  | some f =>
    if f == "" then
      match appf with
      | some g => if g == "" then none else some (false, g)
      | none => none
    else some (true, f)
  | none =>
    match appf with
    | some g => if g == "" then none else some (false, g)
    | none => none

/-- The stdin-side open of line 108: input_file is opened read-only when no
upstream pipe is given and input_file is truthy. -/
def stdinOpens (stdin : Option Nat) (inf : Option String) : List Eff :=
  match stdin, inf with
  | none, some f => if f == "" then [] else [.openRead f]
  | _, _ => []

/-- The stdout-side open of line 109. -/
def stdoutOpens (outf appf : Option String) : List Eff :=
  match stdoutFileOf outf appf with
  | some (true, f) => [.openWrite f]
  | some (false, g) => [.openAppend g]
  | none => []

/-- The finally clause of line 130: when input_file is truthy, whatever stdin
object is present is closed — the upstream pipe when one was given, otherwise
the file opened from input_file. -/
def closeInEffs (inf : Option String) (stdin : Option Nat) : List Eff :=
  match inf, stdin with
  | some f, some h => if f == "" then [] else [.closeH h]
  | some f, none => if f == "" then [] else [.closeFile f]
  | none, _ => []

/-- The finally clause of line 132: the opened stdout file, when one exists,
is closed. -/
def closeOutEffs (outf appf : Option String) : List Eff :=
  match stdoutFileOf outf appf with
  | some (_, f) => [.closeFile f]
  | none => []

/-- The external-command part of execute_command (lines 108-133 of shell.py):
resolve stdin from the upstream pipe or input_file, resolve stdout to
output_file, append_file or the given stdout argument (empty-string filenames
are falsy and skipped, as in Python), spawn the process, and in the finally
clause close whatever stdin object is present when input_file is truthy, and
the opened stdout file when one exists. -/
def externExec (os : OS) (n : Nat) (a0 : String) (command : StageSpec)
    (stdin : Option Nat) (stdout : StdoutArg) : CmdResult × List Eff × OS × Nat :=
  if os.spawnOk command.args then
    (.spawned ⟨n, (stdoutFileOf command.output_file command.append_file).isNone
        && (stdout == .pipeArg)⟩,
      stdinOpens stdin command.input_file ++ stdoutOpens command.output_file command.append_file
        ++ [.spawnEff n command.args]
        ++ closeInEffs command.input_file stdin
        ++ closeOutEffs command.output_file command.append_file,
      os, n + 1)
  else
    (.failed,
      stdinOpens stdin command.input_file ++ stdoutOpens command.output_file command.append_file
        ++ [.printErr (a0 ++ ": command not found")]
        ++ closeInEffs command.input_file stdin
        ++ closeOutEffs command.output_file command.append_file,
      os, n)

/-- The cd target: the second argument when present, else the home directory
(the Python expression args[1] if len(args) > 1 else expanduser of the home). -/
def cdTarget (home : String) : List String → String
  | _ :: t :: _ => t
  | _ => home

/-- Model of execute_command: empty args return True; exit/quit/bye return
False; cd mutates the working directory through the OS oracle; interactive
commands are rejected when any redirection or piped stdin is present and are
otherwise run synchronously; everything else is spawned as an external
process. -/
def execute_command (os : OS) (n : Nat) (command : StageSpec)
    (stdin : Option Nat) (stdout : StdoutArg) : CmdResult × List Eff × OS × Nat :=
  match command.args with
  | [] => (.cont, [], os, n)
  | a0 :: _ =>
    if a0 ∈ ["exit", "quit", "bye"] then (.terminate, [], os, n)
    else if a0 = "cd" then
      let target := cdTarget os.home command.args
      if target = "" then (.cont, [.printErr "cd: missing directory"], os, n)
      else
        match os.chdirRes os.cwd target with
        | some newCwd => (.cont, [], { os with cwd := newCwd }, n)
        | none => (.cont, [.printErr ("cd: " ++ target)], os, n)
    else if a0 ∈ interactive_commands then
      if truthy command.input_file || truthy command.output_file
          || truthy command.append_file || stdin.isSome then
        (.cont, [.printErr "Interactive commands cannot use redirection or pipes"], os, n)
      else
        match os.runRes command.args with
        | .okRun => (.cont, [.runSync command.args], os, n)
        | .notFound => (.cont, [.runSync command.args, .printErr (a0 ++ ": command not found")], os, n)
        | .exitErr m => (.cont, [.runSync command.args, .printErr ("Error: " ++ m)], os, n)
        | .otherErr m => (.cont, [.runSync command.args, .printErr ("Error: " ++ m)], os, n)
    else externExec os n a0 command stdin stdout

/-- The four ways a stage launch can go, abstracting execute_command results. -/
inductive LaunchKind
  | contK | termK | spawnK | failK
deriving DecidableEq

/-- Classification of a stage's launch result, read off the same branch
structure as execute_command: it depends only on the argument vector and the
spawn oracle, never on the stdin/stdout wiring. -/
def launchKind (os : OS) (st : StageSpec) : LaunchKind :=
  match st.args with
  | [] => .contK
  | a0 :: _ =>
    if a0 ∈ ["exit", "quit", "bye"] then .termK
    else if a0 = "cd" then .contK
    else if a0 ∈ interactive_commands then .contK
    else if os.spawnOk st.args then .spawnK
    else .failK

/-- The tail of execute_pipeline (lines 158-167 of shell.py): when at least one
process was spawned, communicate with the last one, print its captured stdout
(present only when that process has a stdout pipe) and its captured stderr in
error-marked form, then close every remaining stdout pipe. -/
def pipelineFinish (os : OS) (procs : List Proc) : List Eff :=
  match procs.getLast? with
  | none => []
  | some lastP =>
    let stdoutData : Option String :=
      if lastP.hasStdoutPipe then some (os.procStdout lastP.id) else none
    let stderrData := os.procStderr lastP.id
    [.waitEff lastP.id] ++
    (match stdoutData with
      | some s => if s ≠ "" then [.printOut s] else []
      | none => []) ++
    (if stderrData ≠ "" then [.printErr stderrData] else []) ++
    (procs.filter (·.hasStdoutPipe)).map (fun p => .closeH p.id)

/-- The stdin wiring of a stage: the Python expression
last_process.stdout if last_process else None, as a pipe handle id. -/
def stdinOf : Option Proc → Option Nat
  | some p => if p.hasStdoutPipe then some p.id else none
  | none => none

/-- The for loop of execute_pipeline: wire each stage's stdin to the previous
process's stdout pipe, give every non-terminal stage stdout=PIPE and the
terminal stage stdout=None, and dispatch on the launch result: False returns
False, True skips the stage, None closes every collected stdout pipe and
returns True, and a process handle is collected. -/
def pipelineLoop (os : OS) (n : Nat) (cmds : List StageSpec) (i total : Nat)
    (procs : List Proc) (lastP : Option Proc) : Bool × List Eff × OS × Nat :=
  match cmds with
  | [] => (true, pipelineFinish os procs, os, n)
  | cmd :: rest =>
    let stdoutArg : StdoutArg := if i < total - 1 then .pipeArg else .inheritArg
    match execute_command os n cmd (stdinOf lastP) stdoutArg with
    | (.terminate, effs, os2, n2) => (false, effs, os2, n2)
    | (.cont, effs, os2, n2) =>
      let r := pipelineLoop os2 n2 rest (i + 1) total procs lastP
      (r.1, effs ++ r.2.1, r.2.2.1, r.2.2.2)
    | (.failed, effs, os2, n2) =>
      (true, effs ++ (procs.filter (·.hasStdoutPipe)).map (fun p => Eff.closeH p.id), os2, n2)
    | (.spawned p, effs, os2, n2) =>
      let r := pipelineLoop os2 n2 rest (i + 1) total (procs ++ [p]) (some p)
      (r.1, effs ++ r.2.1, r.2.2.1, r.2.2.2)

/-- Model of execute_pipeline. -/
def execute_pipeline (os : OS) (n : Nat) (commands : List StageSpec) :
    Bool × List Eff × OS × Nat :=
  if commands.isEmpty then (true, [], os, n)
  else pipelineLoop os n commands 0 commands.length [] none

/-- Events the read-eval loop reacts to: a line typed by the user, a keyboard
interrupt, end of input, or an otherwise-uncaught exception raised while the
line was being evaluated. -/
inductive ReplEvent
  | line (s : List Char)
  | interrupt
  | eofEv
  | exn (msg : String)

/-- One iteration of the while loop of main_loop: strip the line, skip it when
empty, parse it (a ValueError is caught and printed), skip when no stage
remains, run the pipeline and stop when it returns False; interrupts and
unexpected exceptions are caught and printed; end of input stops the loop.
`none` in the second component means the loop breaks. -/
def replStep (os : OS) (n : Nat) : ReplEvent → List Eff × Option (OS × Nat)
  | .line raw =>
    let user_input := pyStrip raw
    if user_input.isEmpty then ([], some (os, n))
    else
      match parse_input user_input with
      | .error e => ([.printErr ("Error: " ++ e)], some (os, n))
      | .ok cmds =>
        if cmds.isEmpty then ([], some (os, n))
        else
          let r := execute_pipeline os n cmds
          (r.2.1, if r.1 then some (r.2.2.1, r.2.2.2) else none)
  | .interrupt => ([.printErr "^C"], some (os, n))
  | .eofEv => ([], none)
  | .exn m => ([.printErr ("Unexpected error: " ++ m)], some (os, n))

/-- Model of main_loop over a finite stream of events: iterate replStep until
it breaks, then print the farewell; the boolean records whether the loop
terminated (rather than running out of modelled events while still live). -/
def main_loop (os : OS) (n : Nat) : List ReplEvent → List Eff × Bool
  | [] => ([], false)
  | e :: rest =>
    match replStep os n e with
    | (effs, none) => (effs ++ [.farewell], true)
    | (effs, some (os2, n2)) =>
      let r := main_loop os2 n2 rest
      (effs ++ r.1, r.2)

/-- Effects that are neither a wait, nor a plain stdout print, nor the
farewell: every effect execute_command itself can emit is of this kind. -/
def isQuiet : Eff → Bool
  | .waitEff _ => false
  | .printOut _ => false
  | .farewell => false
  | _ => true

/-- Recognizer for wait effects. -/
def isWaitEff : Eff → Bool
  | .waitEff _ => true
  | _ => false

/-- The launch-kind sequence of a pipeline reaches a Failed stage, every
earlier stage being Continue or Spawned. -/
def runsToFail : List LaunchKind → Bool
  | [] => false
  | .failK :: _ => true
  | .contK :: r => runsToFail r
  | .spawnK :: r => runsToFail r
  | .termK :: _ => false

/-- The launch-kind sequence of a pipeline reaches a Terminate stage, every
earlier stage being Continue or Spawned. -/
def runsToTerm : List LaunchKind → Bool
  | [] => false
  | .termK :: _ => true
  | .contK :: r => runsToTerm r
  | .spawnK :: r => runsToTerm r
  | .failK :: _ => false

/-- The process handles created by a run of consecutively spawned non-terminal
stages starting at handle id n: ids count up, and a stage's stdout is a pipe
exactly when it declares no output redirection. -/
def spawnProcs (n : Nat) : List StageSpec → List Proc
  | [] => []
  | c :: r => ⟨n, (stdoutFileOf c.output_file c.append_file).isNone⟩ :: spawnProcs (n + 1) r

/-- Fold the threaded last-process register over a list of newly spawned
processes. -/
def lastOf (d : Option Proc) : List Proc → Option Proc
  | [] => d
  | p :: ps => lastOf (some p) ps

/-- Number of farewell effects in a trace. -/
def countFarewell (l : List Eff) : Nat :=
  (l.filter (· == Eff.farewell)).length

/-- The ValueError message parse_input raises for each dangling operator. -/
def opMsg (op : String) : String :=
  if op == "<" then "Missing input file after <"
  else if op == ">" then "Missing output file after >"
  else "Missing output file after >>"

/-- A concrete operating-system oracle used by the witness theorems: echo and
cat exist, nothing else does, no directory change succeeds, process 1 writes
one line to stdout, and nothing writes to stderr. -/
def os0 : OS where
  cwd := "/root"
  home := "/home/user"
  chdirRes := fun _ _ => none
  spawnOk := fun args => args.head? == some "echo" || args.head? == some "cat"
  runRes := fun _ => .okRun
  procStdout := fun h => if h == 1 then "hello\n" else ""
  procStderr := fun _ => ""

/-- A second concrete oracle where chdir succeeds and stage handle 0 writes to
both streams. -/
def os1 : OS where
  cwd := "/root"
  home := "/home/user"
  chdirRes := fun _ t => some t
  spawnOk := fun args => args.head? == some "echo" || args.head? == some "cat"
  runRes := fun _ => .okRun
  procStdout := fun h => if h == 0 then "out\n" else ""
  procStderr := fun h => if h == 0 then "oops\n" else ""

example :
    (execute_pipeline os0 0 [⟨["echo", "hello"], none, none, none⟩, ⟨["cat"], none, none, none⟩]).2.1
      = [.spawnEff 0 ["echo", "hello"], .spawnEff 1 ["cat"], .waitEff 1, .closeH 0] := by decide

example :
    (execute_pipeline os0 0 [⟨["echo", "hello"], none, none, none⟩, ⟨["bad"], none, none, none⟩]).2.1
      = [.spawnEff 0 ["echo", "hello"], .printErr "bad: command not found", .closeH 0] := by decide

example :
    (execute_pipeline os0 0 [⟨["echo", "hello"], none, none, none⟩, ⟨["bad"], none, none, none⟩]).1
      = true := by decide

example : (execute_pipeline os0 0 [⟨["exit"], none, some "f", none⟩]).1 = false := by decide

example : (execute_pipeline os0 0 [⟨["exit"], none, some "f", none⟩]).2.1 = [] := by decide

example : main_loop os0 0 [.line (String.toList "exit")] = ([.farewell], true) := by decide

example :
    main_loop os0 0 [.line (String.toList "echo >"), .interrupt, .eofEv] =
      ([.printErr "Error: Missing output file after >", .printErr "^C", .farewell], true) := by
  decide

example :
    (execute_command os1 0 ⟨["cd", "/tmp"], none, none, none⟩ none .pipeArg).2.2.1.cwd
      = "/tmp" := by decide

example :
    (execute_command os0 0 ⟨["cd", "/tmp"], none, none, none⟩ none .pipeArg).2.2.1.cwd
      = "/root" := by decide

example :
    execute_command os0 0 ⟨["vi"], none, some "file.txt", none⟩ none .inheritArg
      = (.cont, [.printErr "Interactive commands cannot use redirection or pipes"], os0, 0) := by
  rfl

example :
    (execute_command os0 0 ⟨["cat"], some "in.txt", some "out.txt", some "app.txt"⟩ none .pipeArg).2.1
      = [.openRead "in.txt", .openWrite "out.txt", .spawnEff 0 ["cat"],
          .closeFile "in.txt", .closeFile "out.txt"] := by decide

theorem launchKind_cwd (os : OS) (c : String) (st : StageSpec) :
    launchKind { os with cwd := c } st = launchKind os st := rfl

theorem exec_term (os : OS) (n : Nat) (st : StageSpec) (sd : Option Nat) (sa : StdoutArg)
    (h : launchKind os st = .termK) :
    execute_command os n st sd sa = (.terminate, [], os, n) := by
  unfold launchKind at h
  unfold execute_command
  cases hargs : st.args with
  | nil => simp only [hargs] at h; exact absurd h (by decide)
  | cons a0 rest =>
    simp only [hargs] at h ⊢
    by_cases h1 : a0 ∈ ["exit", "quit", "bye"]
    · simp [h1]
    · by_cases h2 : a0 = "cd"
      · simp [h1, h2] at h
      · by_cases h3 : a0 ∈ interactive_commands
        · simp [h1, h2, h3] at h
        · by_cases h4 : os.spawnOk (a0 :: rest) <;> simp [h1, h2, h3, h4] at h

theorem exec_cont (os : OS) (n : Nat) (st : StageSpec) (sd : Option Nat) (sa : StdoutArg)
    (h : launchKind os st = .contK) :
    ∃ effs c, execute_command os n st sd sa = (.cont, effs, { os with cwd := c }, n) := by
  unfold launchKind at h
  unfold execute_command
  cases hargs : st.args with
  | nil => exact ⟨[], os.cwd, by simp only [hargs]⟩
  | cons a0 rest =>
    simp only [hargs] at h ⊢
    by_cases h1 : a0 ∈ ["exit", "quit", "bye"]
    · simp [h1] at h
    · by_cases h2 : a0 = "cd"
      · simp only [if_neg h1, if_pos h2]
        cases rest with
        | nil =>
          simp only [cdTarget]
          by_cases ht : os.home = ""
          · rw [if_pos ht]; exact ⟨_, os.cwd, rfl⟩
          · rw [if_neg ht]
            cases hc : os.chdirRes os.cwd os.home with
            | some c => exact ⟨[], c, rfl⟩
            | none => exact ⟨_, os.cwd, rfl⟩
        | cons t r =>
          simp only [cdTarget]
          by_cases ht : t = ""
          · rw [if_pos ht]; exact ⟨_, os.cwd, rfl⟩
          · rw [if_neg ht]
            cases hc : os.chdirRes os.cwd t with
            | some c => exact ⟨[], c, rfl⟩
            | none => exact ⟨_, os.cwd, rfl⟩
      · by_cases h3 : a0 ∈ interactive_commands
        · simp only [if_neg h1, if_neg h2, if_pos h3]
          by_cases hr : (truthy st.input_file || truthy st.output_file
              || truthy st.append_file || sd.isSome) = true
          · exact ⟨[.printErr "Interactive commands cannot use redirection or pipes"],
              os.cwd, by simp [hr]⟩
          · cases hrr : os.runRes (a0 :: rest) with
            | okRun => exact ⟨[.runSync (a0 :: rest)], os.cwd, by simp [hr, hrr]⟩
            | notFound =>
              exact ⟨[.runSync (a0 :: rest), .printErr (a0 ++ ": command not found")],
                os.cwd, by simp [hr, hrr]⟩
            | exitErr m =>
              exact ⟨[.runSync (a0 :: rest), .printErr ("Error: " ++ m)],
                os.cwd, by simp [hr, hrr]⟩
            | otherErr m =>
              exact ⟨[.runSync (a0 :: rest), .printErr ("Error: " ++ m)],
                os.cwd, by simp [hr, hrr]⟩
        · by_cases h4 : os.spawnOk (a0 :: rest) <;> simp [h1, h2, h3, h4] at h

theorem exec_spawn (os : OS) (n : Nat) (st : StageSpec) (sd : Option Nat) (sa : StdoutArg)
    (h : launchKind os st = .spawnK) :
    ∃ effs, execute_command os n st sd sa =
      (.spawned ⟨n, (stdoutFileOf st.output_file st.append_file).isNone && (sa == .pipeArg)⟩,
        effs, os, n + 1) := by
  unfold launchKind at h
  unfold execute_command externExec
  cases hargs : st.args with
  | nil => simp only [hargs] at h; exact absurd h (by decide)
  | cons a0 rest =>
    simp only [hargs] at h ⊢
    by_cases h1 : a0 ∈ ["exit", "quit", "bye"]
    · simp [h1] at h
    · by_cases h2 : a0 = "cd"
      · simp [h1, h2] at h
      · by_cases h3 : a0 ∈ interactive_commands
        · simp [h1, h2, h3] at h
        · by_cases h4 : os.spawnOk (a0 :: rest)
          · simp only [if_neg h1, if_neg h2, if_neg h3, if_pos h4]
            exact ⟨_, rfl⟩
          · simp [h1, h2, h3, h4] at h

theorem exec_fail (os : OS) (n : Nat) (st : StageSpec) (sd : Option Nat) (sa : StdoutArg)
    (h : launchKind os st = .failK) :
    ∃ effs, execute_command os n st sd sa = (.failed, effs, os, n) := by
  unfold launchKind at h
  unfold execute_command externExec
  cases hargs : st.args with
  | nil => simp only [hargs] at h; exact absurd h (by decide)
  | cons a0 rest =>
    simp only [hargs] at h ⊢
    by_cases h1 : a0 ∈ ["exit", "quit", "bye"]
    · simp [h1] at h
    · by_cases h2 : a0 = "cd"
      · simp [h1, h2] at h
      · by_cases h3 : a0 ∈ interactive_commands
        · simp [h1, h2, h3] at h
        · by_cases h4 : os.spawnOk (a0 :: rest)
          · simp [h1, h2, h3, h4] at h
          · simp only [if_neg h1, if_neg h2, if_neg h3, if_neg h4]
            exact ⟨_, rfl⟩

theorem stdinOpens_quiet (sd : Option Nat) (inf : Option String) :
    ∀ e ∈ stdinOpens sd inf, isQuiet e = true := by
  rcases sd with _ | h
  · rcases inf with _ | f
    · simp [stdinOpens]
    · by_cases hf : (f == "") = true <;> simp [stdinOpens, hf, isQuiet]
  · rcases inf with _ | f <;> simp [stdinOpens]

theorem stdoutOpens_quiet (outf appf : Option String) :
    ∀ e ∈ stdoutOpens outf appf, isQuiet e = true := by
  unfold stdoutOpens
  cases hso : stdoutFileOf outf appf with
  | none => simp
  | some p =>
    obtain ⟨w, f⟩ := p
    cases w <;> simp [isQuiet]

theorem closeInEffs_quiet (inf : Option String) (sd : Option Nat) :
    ∀ e ∈ closeInEffs inf sd, isQuiet e = true := by
  rcases inf with _ | f
  · rcases sd with _ | h <;> simp [closeInEffs]
  · rcases sd with _ | h <;> by_cases hf : (f == "") = true <;>
      simp [closeInEffs, hf, isQuiet]

theorem closeOutEffs_quiet (outf appf : Option String) :
    ∀ e ∈ closeOutEffs outf appf, isQuiet e = true := by
  unfold closeOutEffs
  cases hso : stdoutFileOf outf appf with
  | none => simp
  | some p =>
    obtain ⟨w, f⟩ := p
    simp [isQuiet]

theorem externExec_quiet (os : OS) (n : Nat) (a0 : String) (command : StageSpec)
    (sd : Option Nat) (sa : StdoutArg) :
    ∀ e ∈ (externExec os n a0 command sd sa).2.1, isQuiet e = true := by
  intro e he
  unfold externExec at he
  by_cases hsp : os.spawnOk command.args = true
  · rw [if_pos hsp] at he
    rcases List.mem_append.mp he with h | h
    · rcases List.mem_append.mp h with h | h
      · rcases List.mem_append.mp h with h | h
        · rcases List.mem_append.mp h with h | h
          · exact stdinOpens_quiet sd command.input_file e h
          · exact stdoutOpens_quiet command.output_file command.append_file e h
        · simp only [List.mem_singleton] at h
          subst h
          rfl
      · exact closeInEffs_quiet command.input_file sd e h
    · exact closeOutEffs_quiet command.output_file command.append_file e h
  · rw [if_neg hsp] at he
    rcases List.mem_append.mp he with h | h
    · rcases List.mem_append.mp h with h | h
      · rcases List.mem_append.mp h with h | h
        · rcases List.mem_append.mp h with h | h
          · exact stdinOpens_quiet sd command.input_file e h
          · exact stdoutOpens_quiet command.output_file command.append_file e h
        · simp only [List.mem_singleton] at h
          subst h
          rfl
      · exact closeInEffs_quiet command.input_file sd e h
    · exact closeOutEffs_quiet command.output_file command.append_file e h

theorem exec_quiet (os : OS) (n : Nat) (st : StageSpec) (sd : Option Nat) (sa : StdoutArg) :
    ∀ e ∈ (execute_command os n st sd sa).2.1, isQuiet e = true := by
  rcases st with ⟨args, inf, outf, appf⟩
  cases args with
  | nil => simp [execute_command]
  | cons a0 rest =>
    by_cases h1 : a0 ∈ ["exit", "quit", "bye"]
    · simp [execute_command, h1]
    · by_cases h2 : a0 = "cd"
      · cases rest with
        | nil =>
          by_cases ht : os.home = ""
          · simp [execute_command, cdTarget, h1, h2, ht, isQuiet]
          · cases hc : os.chdirRes os.cwd os.home <;>
              simp [execute_command, cdTarget, h1, h2, ht, hc, isQuiet]
        | cons t r =>
          by_cases ht : t = ""
          · simp [execute_command, cdTarget, h1, h2, ht, isQuiet]
          · cases hc : os.chdirRes os.cwd t <;>
              simp [execute_command, cdTarget, h1, h2, ht, hc, isQuiet]
      · by_cases h3 : a0 ∈ interactive_commands
        · by_cases hr : (truthy inf || truthy outf || truthy appf || sd.isSome) = true
          · simp [execute_command, h1, h2, h3, hr, isQuiet]
          · cases hrr : os.runRes (a0 :: rest) <;>
              simp [execute_command, h1, h2, h3, hr, hrr, isQuiet]
        · simp only [execute_command, if_neg h1, if_neg h2, if_neg h3]
          exact externExec_quiet os n a0 ⟨a0 :: rest, inf, outf, appf⟩ sd sa

theorem map_launchKind_cwd (os : OS) (c : String) (l : List StageSpec) :
    l.map (launchKind { os with cwd := c }) = l.map (launchKind os) := rfl

theorem loop_step_term (os : OS) (n : Nat) (c : StageSpec) (rest : List StageSpec)
    (i total : Nat) (procs : List Proc) (lastP : Option Proc)
    (hk : launchKind os c = .termK) :
    pipelineLoop os n (c :: rest) i total procs lastP = (false, [], os, n) := by
  have he := exec_term os n c
    (stdinOf lastP) (if i < total - 1 then .pipeArg else .inheritArg) hk
  simp [pipelineLoop, he]

theorem loop_step_cont (os : OS) (n : Nat) (c : StageSpec) (rest : List StageSpec)
    (i total : Nat) (procs : List Proc) (lastP : Option Proc)
    (hk : launchKind os c = .contK) :
    ∃ effs c0,
      pipelineLoop os n (c :: rest) i total procs lastP =
        (let r := pipelineLoop { os with cwd := c0 } n rest (i + 1) total procs lastP
         (r.1, effs ++ r.2.1, r.2.2.1, r.2.2.2)) ∧
      (∀ e ∈ effs, isQuiet e = true) := by
  have hq0 := exec_quiet os n c
    (stdinOf lastP) (if i < total - 1 then .pipeArg else .inheritArg)
  obtain ⟨effs, c0, he⟩ := exec_cont os n c
    (stdinOf lastP) (if i < total - 1 then .pipeArg else .inheritArg) hk
  rw [he] at hq0
  exact ⟨effs, c0, by simp [pipelineLoop, he], hq0⟩

theorem loop_step_spawn (os : OS) (n : Nat) (c : StageSpec) (rest : List StageSpec)
    (i total : Nat) (procs : List Proc) (lastP : Option Proc)
    (hk : launchKind os c = .spawnK) :
    ∃ effs,
      pipelineLoop os n (c :: rest) i total procs lastP =
        (let p : Proc := ⟨n, (stdoutFileOf c.output_file c.append_file).isNone
            && ((if i < total - 1 then StdoutArg.pipeArg else StdoutArg.inheritArg)
                == StdoutArg.pipeArg)⟩
         let r := pipelineLoop os (n + 1) rest (i + 1) total (procs ++ [p]) (some p)
         (r.1, effs ++ r.2.1, r.2.2.1, r.2.2.2)) ∧
      (∀ e ∈ effs, isQuiet e = true) := by
  have hq0 := exec_quiet os n c
    (stdinOf lastP) (if i < total - 1 then .pipeArg else .inheritArg)
  obtain ⟨effs, he⟩ := exec_spawn os n c
    (stdinOf lastP) (if i < total - 1 then .pipeArg else .inheritArg) hk
  rw [he] at hq0
  exact ⟨effs, by simp [pipelineLoop, he], hq0⟩

theorem loop_step_fail (os : OS) (n : Nat) (c : StageSpec) (rest : List StageSpec)
    (i total : Nat) (procs : List Proc) (lastP : Option Proc)
    (hk : launchKind os c = .failK) :
    ∃ effs,
      pipelineLoop os n (c :: rest) i total procs lastP =
        (true, effs ++ (procs.filter (·.hasStdoutPipe)).map (fun p => Eff.closeH p.id), os, n) ∧
      (∀ e ∈ effs, isQuiet e = true) := by
  have hq0 := exec_quiet os n c
    (stdinOf lastP) (if i < total - 1 then .pipeArg else .inheritArg)
  obtain ⟨effs, he⟩ := exec_fail os n c
    (stdinOf lastP) (if i < total - 1 then .pipeArg else .inheritArg) hk
  rw [he] at hq0
  exact ⟨effs, by simp [pipelineLoop, he], hq0⟩

theorem loop_term (cmds : List StageSpec) : ∀ (os : OS) (n i total : Nat)
    (procs : List Proc) (lastP : Option Proc),
    runsToTerm (cmds.map (launchKind os)) = true →
    (pipelineLoop os n cmds i total procs lastP).1 = false ∧
    ∀ hh, Eff.waitEff hh ∉ (pipelineLoop os n cmds i total procs lastP).2.1 := by
  induction cmds with
  | nil =>
    intro os n i total procs lastP h
    simp [runsToTerm] at h
  | cons c rest ih =>
    intro os n i total procs lastP h
    rw [List.map_cons] at h
    cases hk : launchKind os c with
    | termK =>
      rw [loop_step_term os n c rest i total procs lastP hk]
      refine ⟨rfl, ?_⟩
      intro hh hm
      simp at hm
    | failK => rw [hk] at h; simp [runsToTerm] at h
    | contK =>
      rw [hk] at h
      simp only [runsToTerm] at h
      obtain ⟨effs, c0, he, hq⟩ := loop_step_cont os n c rest i total procs lastP hk
      rw [he]
      have h2 : runsToTerm (rest.map (launchKind { os with cwd := c0 })) = true := by
        rw [map_launchKind_cwd]; exact h
      have hb := ih { os with cwd := c0 } n (i + 1) total procs lastP h2
      refine ⟨hb.1, ?_⟩
      intro hh hm
      rcases List.mem_append.mp hm with hm1 | hm2
      · have := hq _ hm1; simp [isQuiet] at this
      · exact hb.2 hh hm2
    | spawnK =>
      rw [hk] at h
      simp only [runsToTerm] at h
      obtain ⟨effs, he, hq⟩ := loop_step_spawn os n c rest i total procs lastP hk
      rw [he]
      have hb := ih os (n + 1) (i + 1) total
        (procs ++ [⟨n, (stdoutFileOf c.output_file c.append_file).isNone
            && ((if i < total - 1 then StdoutArg.pipeArg else StdoutArg.inheritArg)
                == StdoutArg.pipeArg)⟩])
        (some ⟨n, (stdoutFileOf c.output_file c.append_file).isNone
            && ((if i < total - 1 then StdoutArg.pipeArg else StdoutArg.inheritArg)
                == StdoutArg.pipeArg)⟩) h
      refine ⟨hb.1, ?_⟩
      intro hh hm
      rcases List.mem_append.mp hm with hm1 | hm2
      · have := hq _ hm1; simp [isQuiet] at this
      · exact hb.2 hh hm2

theorem loop_fail (cmds : List StageSpec) : ∀ (os : OS) (n i total : Nat)
    (procs : List Proc) (lastP : Option Proc),
    runsToFail (cmds.map (launchKind os)) = true →
    (pipelineLoop os n cmds i total procs lastP).1 = true := by
  induction cmds with
  | nil =>
    intro os n i total procs lastP h
    simp [runsToFail] at h
  | cons c rest ih =>
    intro os n i total procs lastP h
    rw [List.map_cons] at h
    cases hk : launchKind os c with
    | termK => rw [hk] at h; simp [runsToFail] at h
    | failK =>
      obtain ⟨effs, he, hq⟩ := loop_step_fail os n c rest i total procs lastP hk
      rw [he]
    | contK =>
      rw [hk] at h
      simp only [runsToFail] at h
      obtain ⟨effs, c0, he, hq⟩ := loop_step_cont os n c rest i total procs lastP hk
      rw [he]
      have h2 : runsToFail (rest.map (launchKind { os with cwd := c0 })) = true := by
        rw [map_launchKind_cwd]; exact h
      exact ih { os with cwd := c0 } n (i + 1) total procs lastP h2
    | spawnK =>
      rw [hk] at h
      simp only [runsToFail] at h
      obtain ⟨effs, he, hq⟩ := loop_step_spawn os n c rest i total procs lastP hk
      rw [he]
      exact ih os (n + 1) (i + 1) total _ _ h

theorem inherit_beq_pipe : (StdoutArg.inheritArg == StdoutArg.pipeArg) = false := rfl

theorem loop_fail_close (pre : List StageSpec) : ∀ (os : OS) (n i total : Nat)
    (procs : List Proc) (lastP : Option Proc) (st : StageSpec) (rest : List StageSpec),
    (∀ c ∈ pre, launchKind os c = .spawnK) →
    launchKind os st = .failK →
    i + pre.length < total →
    ∀ p ∈ procs ++ spawnProcs n pre, p.hasStdoutPipe = true →
      Eff.closeH p.id ∈ (pipelineLoop os n (pre ++ st :: rest) i total procs lastP).2.1 := by
  induction pre with
  | nil =>
    intro os n i total procs lastP st rest hpre hst hlt p hp hpipe
    obtain ⟨effs, he, hq⟩ := loop_step_fail os n st rest i total procs lastP hst
    rw [List.nil_append, he]
    refine List.mem_append.mpr (Or.inr ?_)
    refine List.mem_map.mpr ⟨p, List.mem_filter.mpr ⟨?_, ?_⟩, rfl⟩
    · simpa [spawnProcs] using hp
    · exact hpipe
  | cons c pre2 ih =>
    intro os n i total procs lastP st rest hpre hst hlt p hp hpipe
    have hkc : launchKind os c = .spawnK := hpre c (by simp)
    have hi : i < total - 1 := by
      simp only [List.length_cons] at hlt; omega
    obtain ⟨effs, he, hq⟩ := loop_step_spawn os n c (pre2 ++ st :: rest) i total procs lastP hkc
    rw [if_pos hi] at he
    simp only [beq_self_eq_true, Bool.and_true] at he
    rw [List.cons_append, he]
    refine List.mem_append.mpr (Or.inr ?_)
    have hmem2 : p ∈ (procs ++ [(⟨n, (stdoutFileOf c.output_file c.append_file).isNone⟩ : Proc)])
        ++ spawnProcs (n + 1) pre2 := by
      simpa [spawnProcs, List.append_assoc] using hp
    exact ih os (n + 1) (i + 1) total
      (procs ++ [⟨n, (stdoutFileOf c.output_file c.append_file).isNone⟩])
      (some ⟨n, (stdoutFileOf c.output_file c.append_file).isNone⟩) st rest
      (fun c2 hc2 => hpre c2 (List.mem_cons_of_mem c hc2)) hst
      (by simp only [List.length_cons] at hlt; omega) p hmem2 hpipe

theorem loop_all_spawn (pre : List StageSpec) : ∀ (os : OS) (n i total : Nat)
    (procs : List Proc) (lastP : Option Proc) (lastSt : StageSpec),
    (∀ c ∈ pre, launchKind os c = .spawnK) →
    launchKind os lastSt = .spawnK →
    i + pre.length = total - 1 →
    ∃ effs1,
      pipelineLoop os n (pre ++ [lastSt]) i total procs lastP =
        (true,
          effs1 ++ pipelineFinish os ((procs ++ spawnProcs n pre) ++ [⟨n + pre.length, false⟩]),
          os, n + pre.length + 1) ∧
      (∀ e ∈ effs1, isQuiet e = true) := by
  induction pre with
  | nil =>
    intro os n i total procs lastP lastSt hpre hlast hidx
    obtain ⟨effs, he, hq⟩ := loop_step_spawn os n lastSt [] i total procs lastP hlast
    have hnot : ¬ i < total - 1 := by
      simp only [List.length_nil, Nat.add_zero] at hidx; omega
    rw [if_neg hnot] at he
    refine ⟨effs, ?_, hq⟩
    rw [List.nil_append, he]
    simp [pipelineLoop, spawnProcs, inherit_beq_pipe]
  | cons c pre2 ih =>
    intro os n i total procs lastP lastSt hpre hlast hidx
    have hkc : launchKind os c = .spawnK := hpre c (by simp)
    have hi : i < total - 1 := by
      simp only [List.length_cons] at hidx; omega
    obtain ⟨effs, he, hq⟩ := loop_step_spawn os n c (pre2 ++ [lastSt]) i total procs lastP hkc
    rw [if_pos hi] at he
    simp only [beq_self_eq_true, Bool.and_true] at he
    obtain ⟨effs2, he2, hq2⟩ := ih os (n + 1) (i + 1) total
      (procs ++ [⟨n, (stdoutFileOf c.output_file c.append_file).isNone⟩])
      (some ⟨n, (stdoutFileOf c.output_file c.append_file).isNone⟩) lastSt
      (fun c2 hc2 => hpre c2 (List.mem_cons_of_mem c hc2)) hlast
      (by simp only [List.length_cons] at hidx; omega)
    refine ⟨effs ++ effs2, ?_, ?_⟩
    · rw [List.cons_append, he, he2]
      have harith : n + 1 + pre2.length = n + (pre2.length + 1) := by omega
      simp [spawnProcs, List.append_assoc, harith]
    · intro e me
      rcases List.mem_append.mp me with m1 | m2
      · exact hq e m1
      · exact hq2 e m2

theorem filter_wait_quiet (l : List Eff) (hq : ∀ e ∈ l, isQuiet e = true) :
    l.filter isWaitEff = [] := by
  induction l with
  | nil => rfl
  | cons e l ih =>
    have h1 := hq e (by simp)
    have h2 : isWaitEff e = false := by cases e <;> simp_all [isQuiet, isWaitEff]
    simp [h2, ih (fun x hx => hq x (by simp [hx]))]

theorem filter_wait_closes (l : List Proc) :
    ((l.map (fun p => Eff.closeH p.id)).filter isWaitEff) = [] := by
  induction l with
  | nil => rfl
  | cons p l ih => simp [isWaitEff, ih]

theorem pipelineFinish_no_pipe_last (os : OS) (procs : List Proc) (idL : Nat) :
    pipelineFinish os (procs ++ [(⟨idL, false⟩ : Proc)]) =
      [Eff.waitEff idL] ++
      (if os.procStderr idL ≠ "" then [Eff.printErr (os.procStderr idL)] else []) ++
      ((procs ++ [(⟨idL, false⟩ : Proc)]).filter (fun p => p.hasStdoutPipe)).map
        (fun p => Eff.closeH p.id) := by
  unfold pipelineFinish
  rw [List.getLast?_concat]
  simp

/-- C4 (counterexample): in the pipeline echo hello followed by cat, with every
stage spawned, the terminal process (handle 1) writes a line to its stdout, yet
the executor's trace holds no plain stdout print at all: the terminal stage is
spawned with stdout=None, so its output is never collected, contradicting the
claim that the executor collects the terminal stage's stdout and prints it
verbatim. -/
theorem c4_terminal_stdout_never_printed :
    os0.procStdout 1 = "hello\n" ∧
    (execute_pipeline os0 0
      [⟨["echo", "hello"], none, none, none⟩, ⟨["cat"], none, none, none⟩]).2.1
      = [.spawnEff 0 ["echo", "hello"], .spawnEff 1 ["cat"], .waitEff 1, .closeH 0] ∧
    Eff.printOut "hello\n" ∉
      (execute_pipeline os0 0
        [⟨["echo", "hello"], none, none, none⟩, ⟨["cat"], none, none, none⟩]).2.1 := by
  refine ⟨by decide, by decide, by decide⟩

/-- C4 (amended): for every pipeline in which every stage's launch yields a
spawned handle, the executor returns true, waits only on the terminal stage
(the only wait in the trace is on the last handle), prints nothing to plain
stdout (the terminal stage's stdout is inherited, not captured), and prints
the terminal stage's captured stderr, when non-empty, in error-marked form;
intermediate stages are not waited on. -/
theorem c4_all_spawned_waits_only_terminal (os : OS) (n : Nat) (cmds : List StageSpec)
    (hne : cmds ≠ [])
    (hall : ∀ c ∈ cmds, launchKind os c = .spawnK) :
    (execute_pipeline os n cmds).1 = true ∧
    (execute_pipeline os n cmds).2.2.2 = n + cmds.length ∧
    ((execute_pipeline os n cmds).2.1.filter isWaitEff)
      = [Eff.waitEff (n + cmds.length - 1)] ∧
    (∀ s, Eff.printOut s ∉ (execute_pipeline os n cmds).2.1) ∧
    (os.procStderr (n + cmds.length - 1) ≠ "" →
      Eff.printErr (os.procStderr (n + cmds.length - 1)) ∈ (execute_pipeline os n cmds).2.1) := by
  obtain ⟨pre, lastSt, rfl⟩ : ∃ pre lastSt, cmds = pre ++ [lastSt] := by
    rcases cmds.eq_nil_or_concat' with h | ⟨L, b, h⟩
    · exact absurd h hne
    · exact ⟨L, b, h⟩
  have hlen : (pre ++ [lastSt]).length = pre.length + 1 := by simp
  have hlast : launchKind os lastSt = .spawnK := hall lastSt (by simp)
  have hpre : ∀ c ∈ pre, launchKind os c = .spawnK :=
    fun c hc => hall c (by simp [hc])
  obtain ⟨effs1, he, hq⟩ := loop_all_spawn pre os n 0 (pre ++ [lastSt]).length [] none lastSt
    hpre hlast (by simp)
  have hpl : execute_pipeline os n (pre ++ [lastSt]) =
      pipelineLoop os n (pre ++ [lastSt]) 0 (pre ++ [lastSt]).length [] none := by
    unfold execute_pipeline
    rw [if_neg (by simp)]
  rw [hpl, he]
  rw [List.nil_append] at *
  have hfin := pipelineFinish_no_pipe_last os (spawnProcs n pre) (n + pre.length)
  rw [hfin]
  simp only [hlen]
  have harith : n + (pre.length + 1) - 1 = n + pre.length := by omega
  rw [harith]
  refine ⟨by trivial, ?_, ?_, ?_, ?_⟩
  · show n + pre.length + 1 = n + (pre.length + 1)
    omega
  · simp only [List.filter_append, filter_wait_quiet effs1 hq, filter_wait_closes,
      List.nil_append, List.append_nil]
    by_cases hs : os.procStderr (n + pre.length) ≠ ""
    · rw [if_pos hs]; simp [isWaitEff]
    · rw [if_neg hs]; simp [isWaitEff]
  · intro s hm
    rcases List.mem_append.mp hm with h1 | h2
    · have := hq _ h1; simp [isQuiet] at this
    · rcases List.mem_append.mp h2 with h3 | h4
      · rcases List.mem_append.mp h3 with h5 | h6
        · simp at h5
        · by_cases hs : os.procStderr (n + pre.length) ≠ ""
          · rw [if_pos hs] at h6; simp at h6
          · rw [if_neg hs] at h6; simp at h6
      · rcases List.mem_map.mp h4 with ⟨p, _, hp⟩
        cases hp
  · intro hs
    refine List.mem_append.mpr (Or.inr ?_)
    refine List.mem_append.mpr (Or.inl ?_)
    refine List.mem_append.mpr (Or.inr ?_)
    rw [if_pos hs]
    simp

/-- C4 (amended, witness): the two-stage pipeline echo hello into cat under the
concrete oracle os0 returns true and its only wait is on handle 1, the
terminal stage. -/
theorem c4_witness :
    (execute_pipeline os0 0
      [⟨["echo", "hello"], none, none, none⟩, ⟨["cat"], none, none, none⟩]).1 = true ∧
    ((execute_pipeline os0 0
      [⟨["echo", "hello"], none, none, none⟩, ⟨["cat"], none, none, none⟩]).2.1.filter
        isWaitEff) = [Eff.waitEff 1] := by
  have h := c4_all_spawned_waits_only_terminal os0 0
    [⟨["echo", "hello"], none, none, none⟩, ⟨["cat"], none, none, none⟩]
    (by decide) (by decide)
  exact ⟨h.1, h.2.2.1⟩

/-- C5 (counterexample): the line vi < "" parses to a vi stage whose
input_file is set (to the empty string), yet execute_command does not reject
it: the empty string is falsy in Python, so the guard passes and vi is run
synchronously, contradicting the claim that any set redirection field makes
the launcher print a diagnostic and run nothing. -/
theorem c5_empty_redirection_runs :
    parse_input (String.toList "vi < \"\"") = .ok [⟨["vi"], some "", none, none⟩] ∧
    execute_command os0 0 ⟨["vi"], some "", none, none⟩ none .inheritArg
      = (.cont, [.runSync ["vi"]], os0, 0) := by
  exact ⟨by decide, by rfl⟩

/-- C5 (amended): a stage whose first argument is an interactive command and
that has any of input_file, output_file, append_file set to a non-empty
string, or receives piped stdin, is rejected with a diagnostic and returns
Continue; its only effect is the diagnostic print, so no process is spawned
and no redirection file is opened or created (a field holding the empty
string is falsy in Python and does not trigger the rejection). -/
theorem c5_interactive_redirection_rejected (os : OS) (n : Nat) (st : StageSpec)
    (sd : Option Nat) (sa : StdoutArg) (a0 : String)
    (h0 : st.args.head? = some a0) (hi : a0 ∈ interactive_commands)
    (hr : truthy st.input_file = true ∨ truthy st.output_file = true
        ∨ truthy st.append_file = true ∨ sd.isSome = true) :
    execute_command os n st sd sa =
      (.cont, [.printErr "Interactive commands cannot use redirection or pipes"], os, n) := by
  cases hargs : st.args with
  | nil => rw [hargs] at h0; cases h0
  | cons b rest =>
    rw [hargs] at h0
    injection h0 with hb
    subst hb
    have hrb : (truthy st.input_file || truthy st.output_file
        || truthy st.append_file || sd.isSome) = true := by
      rcases hr with h | h | h | h <;> simp [h]
    unfold execute_command
    simp only [hargs]
    simp only [interactive_commands, List.mem_cons, List.not_mem_nil, or_false] at hi
    rcases hi with rfl | rfl | rfl | rfl | rfl | rfl | rfl | rfl | rfl <;>
      simp [interactive_commands, hrb]

/-- C5 (amended, witness): the stage vi with an output redirection to the
non-empty name file.txt is rejected with the diagnostic alone: Continue is
returned and the trace holds no open, no spawn. -/
theorem c5_witness :
    execute_command os0 0 ⟨["vi"], none, some "file.txt", none⟩ none .inheritArg
      = (.cont, [.printErr "Interactive commands cannot use redirection or pipes"], os0, 0) :=
  c5_interactive_redirection_rejected os0 0 ⟨["vi"], none, some "file.txt", none⟩
    none .inheritArg "vi" rfl (by decide) (Or.inr (Or.inl (by decide)))

/-- C6: when the launch-kind sequence of a pipeline reaches a Failed stage
(each earlier stage Continue or Spawned), the executor returns true, and when
the stages before the failing one all spawned, the stdout pipe handle of every
one of them with a pipe, in particular the immediately preceding stage, is
closed in the trace. -/
theorem c6_fail_closes_pipes_and_continues :
    (∀ (os : OS) (n : Nat) (cmds : List StageSpec),
      runsToFail (cmds.map (launchKind os)) = true →
      (execute_pipeline os n cmds).1 = true) ∧
    (∀ (os : OS) (n : Nat) (pre : List StageSpec) (st : StageSpec) (rest : List StageSpec),
      (∀ c ∈ pre, launchKind os c = .spawnK) →
      launchKind os st = .failK →
      ∀ p ∈ spawnProcs n pre, p.hasStdoutPipe = true →
        Eff.closeH p.id ∈ (execute_pipeline os n (pre ++ st :: rest)).2.1) := by
  constructor
  · intro os n cmds h
    have hne : ¬ cmds.isEmpty = true := by
      cases cmds
      · simp [runsToFail] at h
      · simp
    unfold execute_pipeline
    rw [if_neg hne]
    exact loop_fail cmds os n 0 cmds.length [] none h
  · intro os n pre st rest hpre hst p hp hpipe
    unfold execute_pipeline
    rw [if_neg (by simp)]
    exact loop_fail_close pre os n 0 (pre ++ st :: rest).length [] none st rest hpre hst
      (by simp) p (by simpa using hp) hpipe

/-- C6 (witness): in echo hello followed by the unknown command bad, the
pipeline returns true and the stdout pipe of the preceding stage, handle 0,
is closed. -/
theorem c6_witness :
    (execute_pipeline os0 0
      [⟨["echo", "hello"], none, none, none⟩, ⟨["bad"], none, none, none⟩]).1 = true ∧
    Eff.closeH 0 ∈ (execute_pipeline os0 0
      [⟨["echo", "hello"], none, none, none⟩, ⟨["bad"], none, none, none⟩]).2.1 := by
  constructor
  · exact c6_fail_closes_pipes_and_continues.1 os0 0
      [⟨["echo", "hello"], none, none, none⟩, ⟨["bad"], none, none, none⟩] (by decide)
  · exact c6_fail_closes_pipes_and_continues.2 os0 0
      [⟨["echo", "hello"], none, none, none⟩] ⟨["bad"], none, none, none⟩ []
      (by decide) (by decide) ⟨0, true⟩ (by decide) rfl

/-- C7: when the launch-kind sequence of a pipeline reaches a Terminate stage
(each earlier stage Continue or Spawned), the executor returns false
immediately and no process is waited on: the trace holds no wait effect. -/
theorem c7_terminate_returns_false_immediately (os : OS) (n : Nat)
    (cmds : List StageSpec)
    (h : runsToTerm (cmds.map (launchKind os)) = true) :
    (execute_pipeline os n cmds).1 = false ∧
    ∀ hh, Eff.waitEff hh ∉ (execute_pipeline os n cmds).2.1 := by
  have hne : ¬ cmds.isEmpty = true := by
    cases cmds
    · simp [runsToTerm] at h
    · simp
  unfold execute_pipeline
  rw [if_neg hne]
  exact loop_term cmds os n 0 cmds.length [] none h

/-- C7 (witness): echo hello followed by exit returns false and its trace
waits on nothing, although the first stage already spawned. -/
theorem c7_witness :
    (execute_pipeline os0 0
      [⟨["echo", "hello"], none, none, none⟩, ⟨["exit"], none, none, none⟩]).1 = false ∧
    Eff.waitEff 0 ∉ (execute_pipeline os0 0
      [⟨["echo", "hello"], none, none, none⟩, ⟨["exit"], none, none, none⟩]).2.1 := by
  have h := c7_terminate_returns_false_immediately os0 0
    [⟨["echo", "hello"], none, none, none⟩, ⟨["exit"], none, none, none⟩] (by decide)
  exact ⟨h.1, h.2 0⟩

/-- C9: a cd stage whose target the OS refuses to change into prints a
diagnostic, returns Continue, and leaves the whole OS state, in particular
the working directory shown by the next prompt, unchanged. -/
theorem c9_cd_failure_keeps_cwd (os : OS) (n : Nat) (st : StageSpec)
    (sd : Option Nat) (sa : StdoutArg)
    (h0 : st.args.head? = some "cd")
    (ht : cdTarget os.home st.args ≠ "")
    (hc : os.chdirRes os.cwd (cdTarget os.home st.args) = none) :
    execute_command os n st sd sa =
      (.cont, [.printErr ("cd: " ++ cdTarget os.home st.args)], os, n) := by
  cases hargs : st.args with
  | nil => rw [hargs] at h0; cases h0
  | cons b rest =>
    rw [hargs] at h0
    injection h0 with hb
    subst hb
    rw [hargs] at ht hc
    unfold execute_command
    simp only [hargs]
    simp [ht, hc]

/-- C9 (witness): cd /nope under the oracle os0, where every chdir fails,
prints the diagnostic, returns Continue and leaves the OS record untouched. -/
theorem c9_witness :
    execute_command os0 0 ⟨["cd", "/nope"], none, none, none⟩ none .pipeArg
      = (.cont, [.printErr "cd: /nope"], os0, 0) :=
  c9_cd_failure_keeps_cwd os0 0 ⟨["cd", "/nope"], none, none, none⟩ none .pipeArg
    rfl (by decide) rfl

/-- C10: a stage whose first argument is exit, quit or bye returns Terminate
with an empty effect trace, whatever the remaining arguments, redirection
fields or stdin wiring: no file is opened and no process is spawned. -/
theorem c10_exit_terminates_without_side_effects (os : OS) (n : Nat) (st : StageSpec)
    (sd : Option Nat) (sa : StdoutArg) (a0 : String)
    (h0 : st.args.head? = some a0) (hmem : a0 ∈ ["exit", "quit", "bye"]) :
    execute_command os n st sd sa = (.terminate, [], os, n) := by
  apply exec_term
  unfold launchKind
  cases hargs : st.args with
  | nil => rw [hargs] at h0; cases h0
  | cons b rest =>
    rw [hargs] at h0
    injection h0 with hb
    subst hb
    simp [hmem]

/-- C10 (witness): the stage exit now with an output redirection to f
terminates the shell with an empty trace: the file f is never opened. -/
theorem c10_witness :
    execute_command os0 0 ⟨["exit", "now"], none, some "f", none⟩ none .pipeArg
      = (.terminate, [], os0, 0) :=
  c10_exit_terminates_without_side_effects os0 0 ⟨["exit", "now"], none, some "f", none⟩
    none .pipeArg "exit" rfl (by decide)

theorem splitPipe_no_pipe (l : List Char) (h : ¬ '|' ∈ l) : splitPipe l = [l] := by
  induction l with
  | nil => rfl
  | cons c cs ih =>
    simp only [List.mem_cons, not_or] at h
    obtain ⟨h1, h2⟩ := h
    have hc : (c == '|') = false := by
      simp only [beq_eq_false_iff_ne]
      exact fun hh => h1 hh.symm
    simp only [splitPipe, hc, Bool.false_eq_true, if_false, ih h2]

theorem splitPipe_append (a b : List Char) (ha : ¬ '|' ∈ a) :
    splitPipe (a ++ '|' :: b) = a :: splitPipe b := by
  induction a with
  | nil =>
    simp only [List.nil_append, splitPipe, beq_self_eq_true, if_true]
  | cons c cs ih =>
    simp only [List.mem_cons, not_or] at ha
    obtain ⟨h1, h2⟩ := ha
    have hc : (c == '|') = false := by
      simp only [beq_eq_false_iff_ne]
      exact fun hh => h1 hh.symm
    simp only [List.cons_append, splitPipe, hc, Bool.false_eq_true, if_false, List.append_eq]
    rw [ih h2]

theorem splitPipe_joinPipes (segs : List (List Char))
    (h : ∀ seg ∈ segs, ¬ '|' ∈ seg) (hne : segs ≠ []) :
    splitPipe (joinPipes segs) = segs := by
  induction segs with
  | nil => cases hne rfl
  | cons s rest ih =>
    cases rest with
    | nil => exact splitPipe_no_pipe s (h s (by simp))
    | cons s2 rest2 =>
      show splitPipe (s ++ '|' :: joinPipes (s2 :: rest2)) = s :: s2 :: rest2
      rw [splitPipe_append _ _ (h s (by simp))]
      rw [ih (fun seg hs => h seg (by simp [hs])) (by simp)]

theorem parse_input_segments (segs : List (List Char))
    (hsegs : ∀ seg ∈ segs, ¬ '|' ∈ seg) (hlen : 2 ≤ segs.length) :
    parse_input (joinPipes segs) =
      (match segs.mapM (fun seg => shlexSplit (pyStrip seg)) with
        | .error e => .error e
        | .ok cmds => parseStages cmds) := by
  obtain ⟨s1, s2, rest, rfl⟩ : ∃ s1 s2 rest, segs = s1 :: s2 :: rest := by
    cases segs with
    | nil => simp at hlen
    | cons a t =>
      cases t with
      | nil => simp at hlen
      | cons b u => exact ⟨a, b, u, rfl⟩
  have hcont : (joinPipes (s1 :: s2 :: rest)).contains '|' = true := by
    show (s1 ++ '|' :: joinPipes (s2 :: rest)).contains '|' = true
    exact List.elem_eq_true_of_mem (by simp)
  unfold parse_input
  rw [hcont]
  simp only [if_true]
  rw [splitPipe_joinPipes _ hsegs (by simp)]

theorem scanTokens_append_ok (N : Nat) : ∀ (ts : List String), ts.length ≤ N →
    ∀ (rest2 acc : List String) (a b c : Option String) (acc2 : List String)
      (a2 b2 c2 : Option String),
    scanTokens ts acc a b c = .ok (acc2, a2, b2, c2) →
    scanTokens (ts ++ rest2) acc a b c = scanTokens rest2 acc2 a2 b2 c2 := by
  induction N with
  | zero =>
    intro ts hle rest2 acc a b c acc2 a2 b2 c2 h
    have hnil : ts = [] := by
      cases ts
      · rfl
      · simp at hle
    subst hnil
    simp only [scanTokens] at h
    injection h with h2
    simp only [Prod.mk.injEq] at h2
    obtain ⟨rfl, rfl, rfl, rfl⟩ := h2
    rw [List.nil_append]
  | succ N ih =>
    intro ts hle rest2 acc a b c acc2 a2 b2 c2 h
    cases ts with
    | nil =>
      simp only [scanTokens] at h
      injection h with h2
      simp only [Prod.mk.injEq] at h2
      obtain ⟨rfl, rfl, rfl, rfl⟩ := h2
      rw [List.nil_append]
    | cons t ts2 =>
      rw [scanTokens.eq_def] at h
      rw [List.cons_append, scanTokens.eq_def]
      by_cases h1 : (t == "<") = true
      · simp only [h1, if_true] at h ⊢
        cases ts2 with
        | nil => simp at h
        | cons f ts3 =>
          simp only [List.cons_append]
          exact ih ts3 (by simp at hle; omega) rest2 acc (some f) b c acc2 a2 b2 c2 h
      · by_cases h2 : (t == ">") = true
        · simp only [h1, h2, Bool.false_eq_true, if_false, if_true] at h ⊢
          cases ts2 with
          | nil => simp at h
          | cons f ts3 =>
            simp only [List.cons_append]
            exact ih ts3 (by simp at hle; omega) rest2 acc a (some f) c acc2 a2 b2 c2 h
        · by_cases h3 : (t == ">>") = true
          · simp only [h1, h2, h3, Bool.false_eq_true, if_false, if_true] at h ⊢
            cases ts2 with
            | nil => simp at h
            | cons f ts3 =>
              simp only [List.cons_append]
              exact ih ts3 (by simp at hle; omega) rest2 acc a b (some f) acc2 a2 b2 c2 h
          · simp only [h1, h2, h3, Bool.false_eq_true, if_false] at h ⊢
            exact ih ts2 (by simp at hle; omega) rest2 (acc ++ [t]) a b c acc2 a2 b2 c2 h

theorem scanTokens_append (ts rest2 acc : List String)
    (a b c : Option String) (acc2 : List String) (a2 b2 c2 : Option String)
    (h : scanTokens ts acc a b c = .ok (acc2, a2, b2, c2)) :
    scanTokens (ts ++ rest2) acc a b c = scanTokens rest2 acc2 a2 b2 c2 :=
  scanTokens_append_ok ts.length ts le_rfl rest2 acc a b c acc2 a2 b2 c2 h

theorem scan_trailing_op_pos (ts acc : List String) (a b c : Option String)
    (r : List String × Option String × Option String × Option String)
    (op : String) (hop : op ∈ (["<", ">", ">>"] : List String))
    (hscan : scanTokens ts acc a b c = .ok r) :
    scanTokens (ts ++ [op]) acc a b c = .error (opMsg op) := by
  obtain ⟨acc2, a2, b2, c2⟩ := r
  rw [scanTokens_append ts [op] acc a b c acc2 a2 b2 c2 hscan]
  simp only [List.mem_cons, List.not_mem_nil, or_false] at hop
  rcases hop with rfl | rfl | rfl <;> simp [scanTokens, opMsg]

theorem parseStages_append (xs : List (List String)) : ∀ (ys : List (List String))
    (l : List StageSpec), parseStages xs = .ok l →
    parseStages (xs ++ ys) =
      (match parseStages ys with
        | .error e => .error e
        | .ok l2 => .ok (l ++ l2)) := by
  induction xs with
  | nil =>
    intro ys l h
    simp only [parseStages] at h
    injection h with h2
    subst h2
    rw [List.nil_append]
    cases hys : parseStages ys <;> simp
  | cons cmd xs ih =>
    intro ys l h
    rw [List.cons_append]
    rw [parseStages.eq_def] at h
    rw [parseStages.eq_def]
    by_cases hc : cmd.isEmpty = true
    · simp only [hc, if_true] at h ⊢
      exact ih ys l h
    · simp only [hc, Bool.false_eq_true, if_false] at h ⊢
      split at h
      · cases h
      next args inf outf appf heq =>
        split at h
        · cases h
        next others heq2 =>
          injection h with h2
          subst h2
          rw [ih ys others heq2]
          cases hys : parseStages ys with
          | error e => rfl
          | ok l2 => by_cases ha : args.isEmpty = true <;> simp [ha]

theorem parse_trailing_noPipe (s : List Char) (ts : List String) (op : String)
    (r : List String × Option String × Option String × Option String)
    (hop : op ∈ (["<", ">", ">>"] : List String))
    (hnp : s.contains '|' = false)
    (hsh : shlexSplit s = .ok (ts ++ [op]))
    (hscan : scanTokens ts [] none none none = .ok r) :
    parse_input s = .error (opMsg op) := by
  unfold parse_input
  rw [hnp]
  simp only [Bool.false_eq_true, if_false, hsh, Except.map]
  have hne : (ts ++ [op]).isEmpty = false := by simp
  simp only [parseStages, hne, Bool.false_eq_true, if_false]
  rw [scan_trailing_op_pos ts [] none none none r op hop hscan]

theorem parse_trailing_piped (pre : List (List Char)) (lastSeg : List Char)
    (post : List (List Char)) (ts : List String) (op : String)
    (r : List String × Option String × Option String × Option String)
    (cmds1 cmds2 : List (List String)) (l : List StageSpec)
    (hop : op ∈ (["<", ">", ">>"] : List String))
    (hpre : ∀ seg ∈ pre, ¬ '|' ∈ seg) (hlast : ¬ '|' ∈ lastSeg)
    (hpost : ∀ seg ∈ post, ¬ '|' ∈ seg)
    (hne : pre ≠ [])
    (hm1 : pre.mapM (fun seg => shlexSplit (pyStrip seg)) = .ok cmds1)
    (hm2 : post.mapM (fun seg => shlexSplit (pyStrip seg)) = .ok cmds2)
    (hps : parseStages cmds1 = .ok l)
    (hsh : shlexSplit (pyStrip lastSeg) = .ok (ts ++ [op]))
    (hscan : scanTokens ts [] none none none = .ok r) :
    parse_input (joinPipes (pre ++ lastSeg :: post)) = .error (opMsg op) := by
  have hsegs : ∀ seg ∈ pre ++ lastSeg :: post, ¬ '|' ∈ seg := by
    intro seg hs
    rcases List.mem_append.mp hs with h | h
    · exact hpre seg h
    · rcases List.mem_cons.mp h with rfl | h
      · exact hlast
      · exact hpost seg h
  have hlen : 2 ≤ (pre ++ lastSeg :: post).length := by
    cases pre with
    | nil => cases hne rfl
    | cons x xs =>
      simp only [List.length_append, List.length_cons]
      omega
  rw [parse_input_segments _ hsegs hlen]
  have hmap : (pre ++ lastSeg :: post).mapM (fun seg => shlexSplit (pyStrip seg))
      = .ok (cmds1 ++ (ts ++ [op]) :: cmds2) := by
    rw [List.mapM_append, List.mapM_cons, hm1, hm2, hsh]
    rfl
  rw [hmap]
  show parseStages (cmds1 ++ (ts ++ [op]) :: cmds2) = .error (opMsg op)
  have hbad : parseStages ((ts ++ [op]) :: cmds2) = .error (opMsg op) := by
    rw [parseStages.eq_def]
    have hne2 : (ts ++ [op]).isEmpty = false := by simp
    simp only [hne2, Bool.false_eq_true, if_false]
    rw [scan_trailing_op_pos ts [] none none none r op hop hscan]
  rw [parseStages_append cmds1 ((ts ++ [op]) :: cmds2) l hps, hbad]

theorem replStep_parse_error (os : OS) (n : Nat) (raw : List Char) (e : String)
    (hp : parse_input (pyStrip raw) = .error e) :
    replStep os n (.line raw) = ([.printErr ("Error: " ++ e)], some (os, n)) := by
  unfold replStep
  have hne : (pyStrip raw).isEmpty = false := by
    cases hh : (pyStrip raw).isEmpty
    · rfl
    · exfalso
      have h0 : pyStrip raw = [] := by simpa using hh
      rw [h0] at hp
      rw [show parse_input [] = .ok [] from rfl] at hp
      cases hp
  simp only [hne, Bool.false_eq_true, if_false, hp]

/-- C1 (counterexample): the line echo "a|b" carries its pipe inside double
quotes, yet parse splits at it anyway, leaving an unclosed quote in the first
segment and raising a ValueError, instead of keeping the quoted token intact
inside a single stage as the claim states. -/
theorem c1_quoted_pipe_splits :
    parse_input (String.toList "echo \"a|b\"") = .error "No closing quotation" := by
  decide

/-- C1 (amended): parse splits the line at every pipe character, quoted or
not: every line containing a pipe is the join of two or more pipe-free
segments, and parsing the join strips and word-splits each segment
independently before the redirection scan, so quoting never protects a pipe
and an unbalanced quote in any segment makes the whole parse fail; a line
whose quoted token spans two pipes splits into three pieces. -/
theorem c1_pipe_split_ignores_quotes :
    (∀ (segs : List (List Char)), (∀ seg ∈ segs, ¬ '|' ∈ seg) → 2 ≤ segs.length →
      parse_input (joinPipes segs) =
        (match segs.mapM (fun seg => shlexSplit (pyStrip seg)) with
          | .error e => .error e
          | .ok cmds => parseStages cmds)) ∧
    parse_input (String.toList "echo \"a|b|c\"") = .error "No closing quotation" :=
  ⟨parse_input_segments, by decide⟩

/-- C1 (amended, witness): the pipes in the three-stage line echo hi|wc -l|cat
separate the three commands, each word-split on its own. -/
theorem c1_witness :
    parse_input (joinPipes
        [String.toList "echo hi", String.toList "wc -l", String.toList "cat"]) =
      (match [String.toList "echo hi", String.toList "wc -l",
          String.toList "cat"].mapM (fun seg => shlexSplit (pyStrip seg)) with
        | .error e => .error e
        | .ok cmds => parseStages cmds) :=
  c1_pipe_split_ignores_quotes.1
    [String.toList "echo hi", String.toList "wc -l", String.toList "cat"]
    (by decide) (by decide)

/-- C2 (counterexample): parse of cat > f >> g yields a stage whose
output_file and append_file are BOTH non-null, refuting the at-most-one
invariant; the later-parsed operator here is the append, yet the earlier
output target f is kept, refuting the later-one-wins reading as well. -/
theorem c2_both_targets_set :
    parse_input (String.toList "cat > f >> g")
      = .ok [⟨["cat"], none, some "f", some "g"⟩] ∧
    (some "f").isSome = true ∧ (some "g").isSome = true := by
  exact ⟨by decide, rfl, rfl⟩

theorem stdinOpens_no_append (sd : Option Nat) (inf : Option String) (g : String) :
    Eff.openAppend g ∉ stdinOpens sd inf := by
  rcases sd with _ | h
  · rcases inf with _ | f
    · simp [stdinOpens]
    · by_cases hf : (f == "") = true <;> simp [stdinOpens, hf]
  · rcases inf with _ | f <;> simp [stdinOpens]

theorem closeInEffs_no_append (inf : Option String) (sd : Option Nat) (g : String) :
    Eff.openAppend g ∉ closeInEffs inf sd := by
  rcases inf with _ | f
  · rcases sd with _ | h <;> simp [closeInEffs]
  · rcases sd with _ | h <;> by_cases hf : (f == "") = true <;>
      simp [closeInEffs, hf]

theorem closeOutEffs_no_append (outf appf : Option String) (g : String) :
    Eff.openAppend g ∉ closeOutEffs outf appf := by
  unfold closeOutEffs
  cases stdoutFileOf outf appf with
  | none => simp
  | some p =>
    obtain ⟨w, f⟩ := p
    simp

/-- C2 (amended): output_file and append_file are independent fields, each
taking the later occurrence of its own operator, and both may be set at once;
at execution of an external stage, when both are set and the output target is
a non-empty string, the output target is opened for truncating write and the
append target is never opened; when the output target is the empty string it
is falsy in Python and the append target is opened for append instead. -/
theorem c2_output_wins_over_append :
    parse_input (String.toList "cat > f >> g")
      = .ok [⟨["cat"], none, some "f", some "g"⟩] ∧
    parse_input (String.toList "cat > a > b")
      = .ok [⟨["cat"], none, some "b", none⟩] ∧
    (execute_command os0 0 ⟨["cat"], none, some "", some "g"⟩ none .inheritArg).2.1
      = [.openAppend "g", .spawnEff 0 ["cat"], .closeFile "g"] ∧
    (∀ (os : OS) (n : Nat) (st : StageSpec) (sd : Option Nat) (sa : StdoutArg)
        (a0 f g : String),
      st.args.head? = some a0 →
      a0 ∉ (["exit", "quit", "bye"] : List String) → a0 ≠ "cd" →
      a0 ∉ interactive_commands →
      st.output_file = some f → f ≠ "" → st.append_file = some g →
      Eff.openWrite f ∈ (execute_command os n st sd sa).2.1 ∧
      ∀ g2, Eff.openAppend g2 ∉ (execute_command os n st sd sa).2.1) := by
  refine ⟨by decide, by decide, by decide, ?_⟩
  intro os n st sd sa a0 f g h0 h1 h2 h3 hf hfne hg
  cases hargs : st.args with
  | nil => rw [hargs] at h0; cases h0
  | cons b rest =>
    rw [hargs] at h0
    injection h0 with hb
    subst hb
    have hso : stdoutFileOf st.output_file st.append_file = some (true, f) := by
      rw [hf, hg]
      simp [stdoutFileOf, beq_iff_eq, hfne]
    unfold execute_command
    simp only [hargs, if_neg h1, if_neg h2, if_neg h3]
    unfold externExec
    constructor
    · by_cases hsp : os.spawnOk st.args = true
      · rw [if_pos hsp]
        refine List.mem_append.mpr (Or.inl ?_)
        refine List.mem_append.mpr (Or.inl ?_)
        refine List.mem_append.mpr (Or.inl ?_)
        refine List.mem_append.mpr (Or.inr ?_)
        simp [stdoutOpens, hso]
      · rw [if_neg hsp]
        refine List.mem_append.mpr (Or.inl ?_)
        refine List.mem_append.mpr (Or.inl ?_)
        refine List.mem_append.mpr (Or.inl ?_)
        refine List.mem_append.mpr (Or.inr ?_)
        simp [stdoutOpens, hso]
    · intro g2 hmem
      by_cases hsp : os.spawnOk st.args = true
      · rw [if_pos hsp] at hmem
        rcases List.mem_append.mp hmem with h | h
        · rcases List.mem_append.mp h with h | h
          · rcases List.mem_append.mp h with h | h
            · rcases List.mem_append.mp h with h | h
              · exact stdinOpens_no_append sd st.input_file g2 h
              · rw [show stdoutOpens st.output_file st.append_file = [Eff.openWrite f] by
                  simp [stdoutOpens, hso]] at h
                simp at h
            · simp at h
          · exact closeInEffs_no_append st.input_file sd g2 h
        · exact closeOutEffs_no_append st.output_file st.append_file g2 h
      · rw [if_neg hsp] at hmem
        rcases List.mem_append.mp hmem with h | h
        · rcases List.mem_append.mp h with h | h
          · rcases List.mem_append.mp h with h | h
            · rcases List.mem_append.mp h with h | h
              · exact stdinOpens_no_append sd st.input_file g2 h
              · rw [show stdoutOpens st.output_file st.append_file = [Eff.openWrite f] by
                  simp [stdoutOpens, hso]] at h
                simp at h
            · simp at h
          · exact closeInEffs_no_append st.input_file sd g2 h
        · exact closeOutEffs_no_append st.output_file st.append_file g2 h

/-- C2 (amended, witness): the stage cat with the non-empty output target f
and append target g opens f for writing and never opens g. -/
theorem c2_witness :
    Eff.openWrite "f" ∈
      (execute_command os0 0 ⟨["cat"], none, some "f", some "g"⟩ none .inheritArg).2.1 ∧
    Eff.openAppend "g" ∉
      (execute_command os0 0 ⟨["cat"], none, some "f", some "g"⟩ none .inheritArg).2.1 := by
  have h := c2_output_wins_over_append.2.2.2 os0 0 ⟨["cat"], none, some "f", some "g"⟩
    none .inheritArg "cat" "f" "g" rfl (by decide) (by decide) (by decide) rfl
    (by decide) rfl
  exact ⟨h.1, h.2 "g"⟩

/-- C3 (counterexample): in the line echo > <, the final word-split token is
the operator < with no following token, yet parse raises no error: the < is
consumed as the filename of the preceding >, and the line parses into a stage
writing to the file named <. -/
theorem c3_trailing_op_as_filename :
    parse_input (String.toList "echo > <") = .ok [⟨["echo"], none, some "<", none⟩] := by
  decide

/-- C3 (amended): whenever the redirection scan reaches a trailing operator
token <, > or >> in operator position -- the tokens before it scan cleanly, so
the trailing operator is not consumed as an earlier operator's filename --
the scan raises the matching ValueError; at line level this covers every
pipe-free line whose word-splitting ends in such an operator with the earlier
tokens scanning cleanly, and every piped line some of whose segments ends that
way while the earlier segments parse cleanly; and whenever parse of the
stripped line fails, the REPL step prints the error and stays running, its
trace holding only that print, so no process is spawned. -/
theorem c3_trailing_operator_errors :
    (∀ (ts acc : List String) (a b c : Option String)
      (r : List String × Option String × Option String × Option String)
      (op : String), op ∈ (["<", ">", ">>"] : List String) →
      scanTokens ts acc a b c = .ok r →
      scanTokens (ts ++ [op]) acc a b c = .error (opMsg op)) ∧
    (∀ (s : List Char) (ts : List String) (op : String)
      (r : List String × Option String × Option String × Option String),
      op ∈ (["<", ">", ">>"] : List String) →
      s.contains '|' = false →
      shlexSplit s = .ok (ts ++ [op]) →
      scanTokens ts [] none none none = .ok r →
      parse_input s = .error (opMsg op)) ∧
    (∀ (pre : List (List Char)) (lastSeg : List Char) (post : List (List Char))
      (ts : List String) (op : String)
      (r : List String × Option String × Option String × Option String)
      (cmds1 cmds2 : List (List String)) (l : List StageSpec),
      op ∈ (["<", ">", ">>"] : List String) →
      (∀ seg ∈ pre, ¬ '|' ∈ seg) → ¬ '|' ∈ lastSeg →
      (∀ seg ∈ post, ¬ '|' ∈ seg) →
      pre ≠ [] →
      pre.mapM (fun seg => shlexSplit (pyStrip seg)) = .ok cmds1 →
      post.mapM (fun seg => shlexSplit (pyStrip seg)) = .ok cmds2 →
      parseStages cmds1 = .ok l →
      shlexSplit (pyStrip lastSeg) = .ok (ts ++ [op]) →
      scanTokens ts [] none none none = .ok r →
      parse_input (joinPipes (pre ++ lastSeg :: post)) = .error (opMsg op)) ∧
    (∀ (os : OS) (n : Nat) (raw : List Char) (e : String),
      parse_input (pyStrip raw) = .error e →
      replStep os n (.line raw) = ([.printErr ("Error: " ++ e)], some (os, n))) :=
  ⟨scan_trailing_op_pos,
   fun s ts op r hop hnp hsh hscan => parse_trailing_noPipe s ts op r hop hnp hsh hscan,
   fun pre lastSeg post ts op r cmds1 cmds2 l hop hpre hlast hpost hne hm1 hm2 hps hsh
       hscan =>
     parse_trailing_piped pre lastSeg post ts op r cmds1 cmds2 l hop hpre hlast hpost
       hne hm1 hm2 hps hsh hscan,
   replStep_parse_error⟩

/-- C3 (amended, witness): cat < in > reaches its trailing > in operator
position and parses to the missing-output-file error; the piped line a|echo >
does the same through its second segment; and the REPL step on echo > prints
the error alone and stays running. -/
theorem c3_witness :
    parse_input (String.toList "cat < in >") = .error (opMsg ">") ∧
    parse_input (joinPipes [String.toList "a", String.toList "echo >"])
      = .error (opMsg ">") ∧
    replStep os0 0 (.line (String.toList "echo >"))
      = ([.printErr ("Error: " ++ "Missing output file after >")], some (os0, 0)) := by
  refine ⟨?_, ?_, ?_⟩
  · exact c3_trailing_operator_errors.2.1 (String.toList "cat < in >")
      ["cat", "<", "in"] ">" (["cat"], some "in", none, none)
      (by decide) (by decide) (by decide) (by decide)
  · exact c3_trailing_operator_errors.2.2.1 [String.toList "a"]
      (String.toList "echo >") [] ["echo"] ">" (["echo"], none, none, none)
      [["a"]] [] [⟨["a"], none, none, none⟩]
      (by decide) (by decide) (by decide) (by decide) (by decide) (by decide)
      (by decide) (by decide) (by decide) (by decide)
  · exact c3_trailing_operator_errors.2.2.2 os0 0 (String.toList "echo >")
      "Missing output file after >" (by decide)

theorem pipelineFinish_no_farewell (os : OS) (procs : List Proc) :
    Eff.farewell ∉ pipelineFinish os procs := by
  unfold pipelineFinish
  cases hgl : procs.getLast? with
  | none => simp
  | some p =>
    by_cases hp : p.hasStdoutPipe = true <;>
      by_cases hout : os.procStdout p.id ≠ "" <;>
      by_cases herr : os.procStderr p.id ≠ "" <;>
      simp [hp, hout, herr]

theorem loop_no_farewell (cmds : List StageSpec) : ∀ (os : OS) (n i total : Nat)
    (procs : List Proc) (lastP : Option Proc),
    Eff.farewell ∉ (pipelineLoop os n cmds i total procs lastP).2.1 := by
  induction cmds with
  | nil =>
    intro os n i total procs lastP
    simp only [pipelineLoop]
    exact pipelineFinish_no_farewell os procs
  | cons c rest ih =>
    intro os n i total procs lastP hm
    have hq := exec_quiet os n c (stdinOf lastP)
      (if i < total - 1 then .pipeArg else .inheritArg)
    rcases hres : execute_command os n c (stdinOf lastP)
        (if i < total - 1 then .pipeArg else .inheritArg) with ⟨res, effs, os2, n2⟩
    rw [hres] at hq
    simp only [pipelineLoop, hres] at hm
    cases res with
    | terminate =>
      have := hq _ hm
      simp [isQuiet] at this
    | cont =>
      rcases List.mem_append.mp hm with h1 | h2
      · have := hq _ h1; simp [isQuiet] at this
      · exact ih os2 n2 (i + 1) total procs lastP h2
    | failed =>
      rcases List.mem_append.mp hm with h1 | h2
      · have := hq _ h1; simp [isQuiet] at this
      · rcases List.mem_map.mp h2 with ⟨p, _, hp⟩
        cases hp
    | spawned p =>
      rcases List.mem_append.mp hm with h1 | h2
      · have := hq _ h1; simp [isQuiet] at this
      · exact ih os2 n2 (i + 1) total (procs ++ [p]) (some p) h2

theorem pipeline_no_farewell (os : OS) (n : Nat) (cmds : List StageSpec) :
    Eff.farewell ∉ (execute_pipeline os n cmds).2.1 := by
  unfold execute_pipeline
  by_cases h : cmds.isEmpty = true
  · simp [h]
  · rw [if_neg h]
    exact loop_no_farewell cmds os n 0 cmds.length [] none

theorem replStep_no_farewell (os : OS) (n : Nat) (e : ReplEvent) :
    Eff.farewell ∉ (replStep os n e).1 := by
  cases e with
  | line raw =>
    simp only [replStep]
    by_cases h1 : (pyStrip raw).isEmpty = true
    · simp [h1]
    · rw [if_neg h1]
      cases hp : parse_input (pyStrip raw) with
      | error e2 => simp
      | ok cmds =>
        by_cases h2 : cmds.isEmpty = true
        · simp [h2]
        · simp only [h2, Bool.false_eq_true, if_false]
          exact pipeline_no_farewell os n cmds
  | interrupt => simp [replStep]
  | eofEv => simp [replStep]
  | exn m => simp [replStep]

theorem replStep_none_conditions (os : OS) (n : Nat) (e : ReplEvent)
    (h : (replStep os n e).2 = none) :
    e = .eofEv ∨ ∃ raw cmds, e = .line raw ∧
      parse_input (pyStrip raw) = .ok cmds ∧ cmds.isEmpty = false ∧
      (execute_pipeline os n cmds).1 = false := by
  cases e with
  | interrupt => simp [replStep] at h
  | exn m => simp [replStep] at h
  | eofEv => exact Or.inl rfl
  | line raw =>
    refine Or.inr ?_
    simp only [replStep] at h
    by_cases h1 : (pyStrip raw).isEmpty = true
    · simp [h1] at h
    · rw [if_neg h1] at h
      cases hp : parse_input (pyStrip raw) with
      | error e2 => rw [hp] at h; simp at h
      | ok cmds =>
        rw [hp] at h
        by_cases h2 : cmds.isEmpty = true
        · simp [h2] at h
        · simp only [h2, Bool.false_eq_true, if_false] at h
          by_cases h3 : (execute_pipeline os n cmds).1 = true
          · rw [if_pos h3] at h; cases h
          · refine ⟨raw, cmds, rfl, hp, by simpa using h2, by simpa using h3⟩

theorem countFarewell_append (l1 l2 : List Eff) :
    countFarewell (l1 ++ l2) = countFarewell l1 + countFarewell l2 := by
  simp [countFarewell, List.filter_append]

theorem countFarewell_not_mem (l : List Eff) (h : Eff.farewell ∉ l) :
    countFarewell l = 0 := by
  unfold countFarewell
  rw [List.filter_eq_nil_iff.mpr ?_]
  · rfl
  · intro a ha
    simp only [beq_iff_eq]
    exact fun heq => h (heq ▸ ha)

theorem main_loop_farewell (evs : List ReplEvent) : ∀ (os : OS) (n : Nat),
    countFarewell (main_loop os n evs).1
      = (if (main_loop os n evs).2 then 1 else 0) := by
  induction evs with
  | nil => intro os n; rfl
  | cons e rest ih =>
    intro os n
    rcases hstep : replStep os n e with ⟨effs, st⟩
    have hnf : Eff.farewell ∉ effs := by
      have h0 := replStep_no_farewell os n e
      rw [hstep] at h0
      exact h0
    cases st with
    | none =>
      simp only [main_loop, hstep]
      rw [countFarewell_append, countFarewell_not_mem effs hnf]
      rfl
    | some p =>
      rcases p with ⟨os2, n2⟩
      simp only [main_loop, hstep]
      rw [countFarewell_append, countFarewell_not_mem effs hnf]
      simpa using ih os2 n2

/-- C8: over any finite event stream, the farewell is printed exactly once
when the loop terminates and never otherwise; a step leaves the Running state
only on end-of-input or on a line whose pipeline run returns false; interrupts
and unexpected exceptions are caught, printed and leave the loop running with
unchanged state; and a line whose parse fails only prints the error and stays
running. -/
theorem c8_loop_leaves_running_only_on_false_or_eof :
    (∀ (evs : List ReplEvent) (os : OS) (n : Nat),
      countFarewell (main_loop os n evs).1
        = (if (main_loop os n evs).2 then 1 else 0)) ∧
    (∀ (os : OS) (n : Nat) (e : ReplEvent), (replStep os n e).2 = none →
      e = .eofEv ∨ ∃ raw cmds, e = .line raw ∧
        parse_input (pyStrip raw) = .ok cmds ∧ cmds.isEmpty = false ∧
        (execute_pipeline os n cmds).1 = false) ∧
    (∀ (os : OS) (n : Nat) (m : String),
      replStep os n .interrupt = ([.printErr "^C"], some (os, n)) ∧
      replStep os n (.exn m)
        = ([.printErr ("Unexpected error: " ++ m)], some (os, n))) ∧
    (∀ (os : OS) (n : Nat) (raw : List Char) (e : String),
      parse_input (pyStrip raw) = .error e →
      replStep os n (.line raw) = ([.printErr ("Error: " ++ e)], some (os, n))) :=
  ⟨main_loop_farewell,
   replStep_none_conditions,
   fun _ _ _ => ⟨rfl, rfl⟩,
   replStep_parse_error⟩

/-- C8 (witness): a session holding a parse error, an interrupt and an
end-of-input prints the two diagnostics, terminates on the end-of-input alone,
and prints the farewell exactly once; a terminating step must be end-of-input
when it is not a line. -/
theorem c8_witness :
    countFarewell (main_loop os0 0
      [.line (String.toList "echo >"), .interrupt, .eofEv]).1 = 1 ∧
    (main_loop os0 0 [.line (String.toList "echo >"), .interrupt, .eofEv]).2 = true ∧
    (ReplEvent.eofEv = .eofEv ∨ ∃ raw cmds, ReplEvent.eofEv = .line raw ∧
        parse_input (pyStrip raw) = .ok cmds ∧ cmds.isEmpty = false ∧
        (execute_pipeline os0 0 cmds).1 = false) ∧
    replStep os0 0 (.line (String.toList "echo >"))
      = ([.printErr ("Error: " ++ "Missing output file after >")], some (os0, 0)) := by
  have hterm : (main_loop os0 0
      [.line (String.toList "echo >"), .interrupt, .eofEv]).2 = true := by decide
  refine ⟨?_, hterm, ?_, ?_⟩
  · rw [c8_loop_leaves_running_only_on_false_or_eof.1
      [.line (String.toList "echo >"), .interrupt, .eofEv] os0 0, hterm]
    rfl
  · exact c8_loop_leaves_running_only_on_false_or_eof.2.1 os0 0 .eofEv rfl
  · exact c8_loop_leaves_running_only_on_false_or_eof.2.2.2 os0 0
      (String.toList "echo >") "Missing output file after >" (by decide)

example : shlexSplit (String.toList "cat > f >> g") = .ok ["cat", ">", "f", ">>", "g"] := by
  decide

example : parse_input (String.toList "cat > f >> g") =
    .ok [⟨["cat"], none, some "f", some "g"⟩] := by decide

example : parse_input (String.toList "echo \"a|b\"") = .error "No closing quotation" := by
  decide

example : parse_input (String.toList "echo > <") =
    .ok [⟨["echo"], none, some "<", none⟩] := by decide

example : parse_input (String.toList "echo hi | wc -l") =
    .ok [⟨["echo", "hi"], none, none, none⟩, ⟨["wc", "-l"], none, none, none⟩] := by decide

example : parse_input (String.toList "echo >") = .error "Missing output file after >" := by
  decide

example : parse_input (String.toList "") = .ok [] := by decide

end LlamaShell
